import Mathlib

/-!
Verification of the `osm-types` crate (`src/lib.rs`): the OpenStreetMap
element data model. This file gives a shallow embedding of the crate's
types (`Element`, `Node`, `Way`, `Relation`, `Id`, `Member`, `MemberType`,
`Info`, and the tag mapping) and of their operations (`id`, `tags`, `info`,
`strip_info`, `as_node` / `as_way` / `as_relation`), together with a model
of the derived serde serialization, and proves the spec's claims about them.

Rust's in-place mutation (`strip_info(&mut self)`) is embedded as a pure
function returning the updated value; machine integers (`i64`, `i32`) are
embedded as `Int` (no arithmetic is ever performed on them, so the
embedding is an order- and equality-preserving injection).
-/

namespace Osm

/-- Model of `kstring::KString`: an immutable string value. -/
abbrev KString := String

/-- Model of `rust_decimal::Decimal` (used for `Node.lat` / `Node.lon`):
a fixed-precision decimal, abstracted as a mantissa together with a
decimal scale. The crate never computes with coordinates, so only
value identity matters here. -/
structure Decimal where
  mantissa : Int
  scale : Nat
  deriving DecidableEq, Repr

/-- Model of `chrono::NaiveDateTime` (used for `Info.timestamp`): a
calendar date-time without timezone, abstracted as an instant value. The
crate never computes with timestamps, so only value identity matters. -/
structure NaiveDateTime where
  val : Int
  deriving DecidableEq, Repr

/-- The strict total order on keys used to keep tag entries canonical:
lexicographic order on the key's characters. Any fixed total order works;
it is a modelling device, not part of the crate (hash maps are unordered). -/
def keyLt (a b : KString) : Prop :=
  List.Lex (· < ·) a.data b.data

instance : DecidableRel keyLt := fun a b =>
  inferInstanceAs (Decidable (List.Lex (· < ·) a.data b.data))

/-- The key order is a strict total order (lexicographic order of the
linear order on characters). -/
def keyLt_sto : IsStrictTotalOrder (List Char) (List.Lex (· < ·)) :=
  inferInstance

/-- Two strings with the same character data are equal. -/
def string_data_inj {a b : KString} (h : a.data = b.data) : a = b := by
  cases a; cases b; cases h; rfl

/-- Keys strictly ascending along a tag entry list: this is the canonical
form used to model the hash map, and it forces keys to be unique. -/
def TagEntriesSorted (l : List (KString × KString)) : Prop :=
  l.Pairwise fun a b => keyLt a.1 b.1

/-- Model of `fnv::FnvHashMap<KString, KString>`, the tag mapping: a
canonical association list whose entries are strictly sorted by key.
Because the representation is canonical, Lean equality of `Tags`
coincides with Rust `HashMap` equality (same set of key/value pairs,
insertion order irrelevant). -/
structure Tags where
  entries : List (KString × KString)
  sorted : TagEntriesSorted entries

instance : DecidableEq Tags := fun a b =>
  if h : a.entries = b.entries then
    isTrue (by cases a; cases b; cases h; rfl)
  else
    isFalse (fun hh => h (hh ▸ rfl))

/-- `struct Id(pub i64)`: the element identifier, a newtype over a 64-bit
signed integer. Constructible from any integer (no validation). -/
structure Id where
  val : Int
  deriving DecidableEq, Repr

/-- The strict order on `Id` derived by `#[derive(PartialOrd, Ord)]` on a
single-field newtype: comparison of the wrapped integer. -/
def Id.lt (a b : Id) : Prop :=
  a.val < b.val

instance : DecidableRel Id.lt := fun a b =>
  inferInstanceAs (Decidable (a.val < b.val))

/-- `struct Info`: non-geographical revision metadata of an element. -/
structure Info where
  version : Int
  timestamp : Option NaiveDateTime
  changeset : Option Int
  uid : Option Int
  user : Option KString
  visible : Option Bool
  deriving DecidableEq

/-- `struct Node`: a single point in space. -/
structure Node where
  id : Id
  tags : Tags
  info : Option Info
  lat : Decimal
  lon : Decimal
  deriving DecidableEq

/-- `struct Way`: an ordered list of node references. -/
structure Way where
  id : Id
  tags : Tags
  info : Option Info
  refs : List Id
  deriving DecidableEq

/-- `enum MemberType`: the kind of element a relation member points at. -/
inductive MemberType where
  | node
  | way
  | relation
  deriving DecidableEq, Repr

/-- `struct Member`: one entry of a relation's member list. -/
structure Member where
  id : Id
  ty : MemberType
  role : Option KString
  deriving DecidableEq

/-- `struct Relation`: an ordered list of typed, role-annotated references. -/
structure Relation where
  id : Id
  tags : Tags
  info : Option Info
  members : List Member
  deriving DecidableEq

/-- `enum Element`: the three-case variant unifying `Node`, `Way`,
`Relation`. -/
inductive Element where
  | node (n : Node)
  | way (w : Way)
  | relation (r : Relation)
  deriving DecidableEq

/-- `Element::id`: returns the wrapped record's `id` field. -/
def Element.id : Element → Id
  | .node n => n.id
  | .way w => w.id
  | .relation r => r.id

/-- `Element::tags`: returns the wrapped record's `tags` field. -/
def Element.tags : Element → Tags
  | .node n => n.tags
  | .way w => w.tags
  | .relation r => r.tags

/-- `Element::info`: returns the wrapped record's `info` field
(`Option<&Info>` in Rust, `Option Info` here). -/
def Element.info : Element → Option Info
  | .node n => n.info
  | .way w => w.info
  | .relation r => r.info

/-- `Element::strip_info`: sets the wrapped record's `info` field to
`None`, leaving every other field untouched (the Rust body takes a mutable
reference to the inner `info` field and overwrites it). -/
def Element.strip_info : Element → Element
  | .node n => .node { id := n.id, tags := n.tags, info := none, lat := n.lat, lon := n.lon }
  | .way w => .way { id := w.id, tags := w.tags, info := none, refs := w.refs }
  | .relation r => .relation { id := r.id, tags := r.tags, info := none, members := r.members }

/-- `Element::as_node`: the wrapped `Node` if the variant is `Node`, else `None`. -/
def Element.as_node : Element → Option Node
  | .node n => some n
  | _ => none

/-- `Element::as_way`: the wrapped `Way` if the variant is `Way`, else `None`. -/
def Element.as_way : Element → Option Way
  | .way w => some w
  | _ => none

/-- `Element::as_relation`: the wrapped `Relation` if the variant is
`Relation`, else `None`. -/
def Element.as_relation : Element → Option Relation
  | .relation r => some r
  | _ => none

/-- `Node::strip_info`: `self.info = None;` on the concrete record. -/
def Node.strip_info (n : Node) : Node :=
  { n with info := none }

/-- `Way::strip_info`: `self.info = None;` on the concrete record. -/
def Way.strip_info (w : Way) : Way :=
  { w with info := none }

/-- `Relation::strip_info`: `self.info = None;` on the concrete record. -/
def Relation.strip_info (r : Relation) : Relation :=
  { r with info := none }

/-- `HashMap::insert` on the canonical entry list: replaces the value at
an existing key (last write wins, as in the hash map), otherwise places
the new pair at its position in the key order. -/
def insertTag (k v : KString) : List (KString × KString) → List (KString × KString)
  | [] => [(k, v)]
  | p :: rest =>
    if keyLt k p.1 then (k, v) :: p :: rest
    else if k = p.1 then (k, v) :: rest
    else p :: insertTag k v rest

/-- Every entry of `insertTag k v l` is the new pair or an entry of `l`
(invariant-preservation fact needed to build `Tags.insert`). -/
def insertTag_mem {k v : KString} {l : List (KString × KString)}
    {x : KString × KString} (h : x ∈ insertTag k v l) : x = (k, v) ∨ x ∈ l := by
  induction l with
  | nil => simpa [insertTag] using h
  | cons p rest ih =>
    simp only [insertTag] at h
    by_cases h1 : keyLt k p.1
    · rw [if_pos h1] at h
      rcases List.mem_cons.mp h with rfl | h
      · exact Or.inl rfl
      · exact Or.inr h
    · rw [if_neg h1] at h
      by_cases h2 : k = p.1
      · rw [if_pos h2] at h
        rcases List.mem_cons.mp h with rfl | h
        · exact Or.inl rfl
        · exact Or.inr (List.mem_cons_of_mem _ h)
      · rw [if_neg h2] at h
        rcases List.mem_cons.mp h with rfl | h
        · exact Or.inr (List.mem_cons_self _ _)
        · rcases ih h with rfl | h
          · exact Or.inl rfl
          · exact Or.inr (List.mem_cons_of_mem _ h)

/-- `insertTag` preserves the canonical (sorted) form of the entry list
(invariant-preservation fact needed to build `Tags.insert`). -/
def insertTag_sorted {k v : KString} {l : List (KString × KString)}
    (h : TagEntriesSorted l) : TagEntriesSorted (insertTag k v l) := by
  induction l with
  | nil => simp [insertTag, TagEntriesSorted]
  | cons p rest ih =>
    rw [TagEntriesSorted, List.pairwise_cons] at h
    obtain ⟨hp, hrest⟩ := h
    rw [TagEntriesSorted]
    simp only [insertTag]
    by_cases h1 : keyLt k p.1
    · rw [if_pos h1]
      refine List.Pairwise.cons (fun x hx => ?_) (List.Pairwise.cons hp hrest)
      rcases List.mem_cons.mp hx with rfl | hx
      · exact h1
      · exact keyLt_sto.trans _ _ _ h1 (hp x hx)
    · rw [if_neg h1]
      by_cases h2 : k = p.1
      · rw [if_pos h2]
        refine List.Pairwise.cons (fun x hx => ?_) hrest
        show keyLt k x.1
        rw [h2]
        exact hp x hx
      · rw [if_neg h2]
        refine List.Pairwise.cons (fun x hx => ?_) (ih hrest)
        rcases insertTag_mem hx with rfl | hx
        · show keyLt p.1 k
          rcases keyLt_sto.trichotomous k.data p.1.data with h3 | h3 | h3
          · exact absurd h3 h1
          · exact absurd (string_data_inj h3) h2
          · exact h3
        · exact hp x hx

/-- The empty tag mapping (`HashMap::default`). -/
def Tags.empty : Tags :=
  ⟨[], List.Pairwise.nil⟩

/-- `HashMap::insert` lifted to the tag mapping. -/
def Tags.insert (t : Tags) (k v : KString) : Tags :=
  ⟨insertTag k v t.entries, insertTag_sorted t.sorted⟩

/-- Modelled from the spec: the crate defines open and closed ways only
in the documentation of `Way::refs` ("In an open way, the first and last
nodes differ. In a closed way, the first and last nodes are identical.")
and in the spec's §3 Way invariant; there is no executable function for
it in the source. A way is closed when it has a first node and the first
node equals the last one. -/
def Way.is_closed (w : Way) : Bool :=
  match w.refs.head?, w.refs.getLast? with
  | some a, some b => decide (a = b)
  | _, _ => false

/-- Modelled from the spec (see `Way.is_closed`): a way is open when it
has a first node and the first node differs from the last one; a way with
no nodes is neither closed nor open (degenerate). -/
def Way.is_open (w : Way) : Bool :=
  match w.refs.head?, w.refs.getLast? with
  | some a, some b => decide (a ≠ b)
  | _, _ => false

/-- A JSON-like self-describing tree: the serialized form produced by the
crate's derived `serde::Serialize` implementations (the serde data
model). An object is a list of field-name/value pairs. -/
inductive Json where
  | null
  | bool (b : Bool)
  | num (n : Int)
  | str (s : String)
  | arr (xs : List Json)
  | obj (fields : List (String × Json))

/-- `Id` serializes as its bare integer value (serde newtype struct). -/
def Id.toJson (i : Id) : Json :=
  .num i.val

/-- `Decimal`'s serialized form (an exact decimal literal in the real
crate), modelled injectively as the mantissa/scale pair. -/
def Decimal.toJson (d : Decimal) : Json :=
  .arr [.num d.mantissa, .num (d.scale : Int)]

/-- `NaiveDateTime`'s serialized form (an ISO-8601 date-time string in
the real crate), modelled injectively as the underlying instant. -/
def NaiveDateTime.toJson (t : NaiveDateTime) : Json :=
  .num t.val

/-- `Option<T>` serializes as `null` when absent, else as the value
itself (serde default for options). -/
def optToJson {α : Type} (f : α → Json) : Option α → Json
  | none => .null
  | some a => f a

/-- The tag hash map serializes as a string-to-string object. -/
def Tags.toJson (t : Tags) : Json :=
  .obj (t.entries.map fun p => (p.1, Json.str p.2))

/-- `Info` serializes as an object with its six fields in declaration
order, optional fields as `null` when absent. -/
def Info.toJson (i : Info) : Json :=
  .obj [("version", .num i.version),
        ("timestamp", optToJson NaiveDateTime.toJson i.timestamp),
        ("changeset", optToJson (fun c => Json.num c) i.changeset),
        ("uid", optToJson (fun u => Json.num u) i.uid),
        ("user", optToJson (fun u => Json.str u) i.user),
        ("visible", optToJson (fun b => Json.bool b) i.visible)]

/-- `Node` serializes as an object with its five fields in declaration
order. -/
def Node.toJson (n : Node) : Json :=
  .obj [("id", n.id.toJson), ("tags", n.tags.toJson),
        ("info", optToJson Info.toJson n.info),
        ("lat", n.lat.toJson), ("lon", n.lon.toJson)]

/-- `Way` serializes as an object with its four fields in declaration
order; the reference list as an array. -/
def Way.toJson (w : Way) : Json :=
  .obj [("id", w.id.toJson), ("tags", w.tags.toJson),
        ("info", optToJson Info.toJson w.info),
        ("refs", .arr (w.refs.map Id.toJson))]

/-- A unit enum variant serializes as its name (serde default). -/
def MemberType.toJson : MemberType → Json
  | .node => .str "Node"
  | .way => .str "Way"
  | .relation => .str "Relation"

/-- `Member` serializes as an object with its three fields in declaration
order. -/
def Member.toJson (m : Member) : Json :=
  .obj [("id", m.id.toJson), ("ty", m.ty.toJson),
        ("role", optToJson (fun r => Json.str r) m.role)]

/-- `Relation` serializes as an object with its four fields in
declaration order; the member list as an array, order preserved. -/
def Relation.toJson (r : Relation) : Json :=
  .obj [("id", r.id.toJson), ("tags", r.tags.toJson),
        ("info", optToJson Info.toJson r.info),
        ("members", .arr (r.members.map Member.toJson))]

/-- `Element` serializes as an externally tagged union (serde default for
enums): a one-field object keyed by the variant name. -/
def Element.toJson : Element → Json
  | .node n => .obj [("Node", n.toJson)]
  | .way w => .obj [("Way", w.toJson)]
  | .relation r => .obj [("Relation", r.toJson)]

/-- Deserializer for `Id`: any integer, unvalidated. -/
def Id.fromJson? : Json → Option Id
  | .num n => some ⟨n⟩
  | _ => none

/-- Deserializer for `Decimal` (see `Decimal.toJson`). -/
def Decimal.fromJson? : Json → Option Decimal
  | .arr [.num m, .num s] => if 0 ≤ s then some ⟨m, s.toNat⟩ else none
  | _ => none

/-- Deserializer for `NaiveDateTime` (see `NaiveDateTime.toJson`). -/
def NaiveDateTime.fromJson? : Json → Option NaiveDateTime
  | .num n => some ⟨n⟩
  | _ => none

/-- Deserializer for a bare integer field. -/
def intFromJson? : Json → Option Int
  | .num n => some n
  | _ => none

/-- Deserializer for a bare string field. -/
def strFromJson? : Json → Option String
  | .str s => some s
  | _ => none

/-- Deserializer for a bare boolean field. -/
def boolFromJson? : Json → Option Bool
  | .bool b => some b
  | _ => none

/-- Deserializer for `Option<T>`: `null` is absent, anything else is fed
to the inner deserializer (serde default for options). -/
def optFromJson? {α : Type} (f : Json → Option α) : Json → Option (Option α)
  | .null => some none
  | j => (f j).map some

/-- Deserializer for the entries of a tag object: every value must be a
string. -/
def decodeTagEntries : List (String × Json) → Option (List (KString × KString))
  | [] => some []
  | (k, .str v) :: rest => (decodeTagEntries rest).map fun r => (k, v) :: r
  | _ => none

/-- The hash-map deserializer inserts the decoded entries into an empty
map in stream order (last write to a key wins, as in serde's map visitor). -/
def Tags.fromEntries (l : List (KString × KString)) : Tags :=
  l.foldl (fun t p => t.insert p.1 p.2) Tags.empty

/-- Deserializer for the tag mapping. -/
def Tags.fromJson? : Json → Option Tags
  | .obj fields => (decodeTagEntries fields).map Tags.fromEntries
  | _ => none

/-- Deserializer for `Info` (the serialized field shape of
`Info.toJson`). -/
def Info.fromJson? : Json → Option Info
  | .obj [("version", .num v), ("timestamp", tj), ("changeset", cj),
          ("uid", uj), ("user", usj), ("visible", vj)] => do
    let t ← optFromJson? NaiveDateTime.fromJson? tj
    let c ← optFromJson? intFromJson? cj
    let u ← optFromJson? intFromJson? uj
    let us ← optFromJson? strFromJson? usj
    let vis ← optFromJson? boolFromJson? vj
    pure ⟨v, t, c, u, us, vis⟩
  | _ => none

/-- Deserializer for `Node` (the serialized field shape of
`Node.toJson`). -/
def Node.fromJson? : Json → Option Node
  | .obj [("id", ij), ("tags", tj), ("info", infj), ("lat", latj), ("lon", lonj)] => do
    let i ← Id.fromJson? ij
    let t ← Tags.fromJson? tj
    let inf ← optFromJson? Info.fromJson? infj
    let la ← Decimal.fromJson? latj
    let lo ← Decimal.fromJson? lonj
    pure ⟨i, t, inf, la, lo⟩
  | _ => none

/-- Deserializer for an array of node references. -/
def decodeRefs : List Json → Option (List Id)
  | [] => some []
  | j :: rest => do
    let i ← Id.fromJson? j
    let l ← decodeRefs rest
    pure (i :: l)

/-- Deserializer for `Way` (the serialized field shape of `Way.toJson`). -/
def Way.fromJson? : Json → Option Way
  | .obj [("id", ij), ("tags", tj), ("info", infj), ("refs", .arr rj)] => do
    let i ← Id.fromJson? ij
    let t ← Tags.fromJson? tj
    let inf ← optFromJson? Info.fromJson? infj
    let refs ← decodeRefs rj
    pure ⟨i, t, inf, refs⟩
  | _ => none

/-- Deserializer for `MemberType`: one of the three variant names. -/
def MemberType.fromJson? : Json → Option MemberType
  | .str "Node" => some .node
  | .str "Way" => some .way
  | .str "Relation" => some .relation
  | _ => none

/-- Deserializer for `Member` (the serialized field shape of
`Member.toJson`). -/
def Member.fromJson? : Json → Option Member
  | .obj [("id", ij), ("ty", tj), ("role", rj)] => do
    let i ← Id.fromJson? ij
    let ty ← MemberType.fromJson? tj
    let role ← optFromJson? strFromJson? rj
    pure ⟨i, ty, role⟩
  | _ => none

/-- Deserializer for an array of relation members, order preserved. -/
def decodeMembers : List Json → Option (List Member)
  | [] => some []
  | j :: rest => do
    let m ← Member.fromJson? j
    let l ← decodeMembers rest
    pure (m :: l)

/-- Deserializer for `Relation` (the serialized field shape of
`Relation.toJson`). -/
def Relation.fromJson? : Json → Option Relation
  | .obj [("id", ij), ("tags", tj), ("info", infj), ("members", .arr mj)] => do
    let i ← Id.fromJson? ij
    let t ← Tags.fromJson? tj
    let inf ← optFromJson? Info.fromJson? infj
    let members ← decodeMembers mj
    pure ⟨i, t, inf, members⟩
  | _ => none

/-- Deserializer for `Element`: the externally tagged union shape. -/
def Element.fromJson? : Json → Option Element
  | .obj [("Node", j)] => (Node.fromJson? j).map Element.node
  | .obj [("Way", j)] => (Way.fromJson? j).map Element.way
  | .obj [("Relation", j)] => (Relation.fromJson? j).map Element.relation
  | _ => none

/-- The Rust traits appearing in the crate's `#[derive(...)]` attribute
lists (`Serialize` / `Deserialize` sit behind the `serde` feature and are
modelled by the `toJson` / `fromJson?` pairs instead). `eqPartial` is
`PartialEq`, `eqFull` is `Eq`, `ordPartialCmp` is `PartialOrd`, and
`ordTotal` is `Ord`. -/
inductive Trait where
  | debug
  | eqPartial
  | eqFull
  | clone
  | copy
  | hash
  | ordPartialCmp
  | ordTotal
  deriving DecidableEq, Repr

/-- `#[derive(Debug, PartialEq, Eq, Clone)]` on `enum Element`. -/
def Element.derivedTraits : List Trait :=
  [.debug, .eqPartial, .eqFull, .clone]

/-- `#[derive(Debug, PartialEq, Eq, PartialOrd, Ord, Clone, Copy, Hash)]`
on `struct Id`. -/
def Id.derivedTraits : List Trait :=
  [.debug, .eqPartial, .eqFull, .ordPartialCmp, .ordTotal, .clone, .copy, .hash]

/-- `#[derive(Debug, PartialEq, Eq, Clone)]` on `struct Node`. -/
def Node.derivedTraits : List Trait :=
  [.debug, .eqPartial, .eqFull, .clone]

/-- `#[derive(Debug, PartialEq, Eq, Clone)]` on `struct Way`. -/
def Way.derivedTraits : List Trait :=
  [.debug, .eqPartial, .eqFull, .clone]

/-- `#[derive(Debug, PartialEq, Eq, Clone)]` on `struct Relation`. -/
def Relation.derivedTraits : List Trait :=
  [.debug, .eqPartial, .eqFull, .clone]

/-- `#[derive(Debug, PartialEq, Eq, Clone, Hash)]` on `struct Member`. -/
def Member.derivedTraits : List Trait :=
  [.debug, .eqPartial, .eqFull, .clone, .hash]

/-- `#[derive(Debug, PartialEq, Eq, Clone, Hash)]` on `enum MemberType`. -/
def MemberType.derivedTraits : List Trait :=
  [.debug, .eqPartial, .eqFull, .clone, .hash]

/-- `#[derive(Debug, PartialEq, Eq, Clone, Hash)]` on `struct Info`. -/
def Info.derivedTraits : List Trait :=
  [.debug, .eqPartial, .eqFull, .clone, .hash]

/-- `Clone::clone` in a value model: a deep copy is the value itself. -/
def Element.clone (e : Element) : Element := e

/-- `Clone::clone` in a value model (see `Element.clone`). -/
def Node.clone (n : Node) : Node := n

/-- `Clone::clone` in a value model (see `Element.clone`). -/
def Way.clone (w : Way) : Way := w

/-- `Clone::clone` in a value model (see `Element.clone`). -/
def Relation.clone (r : Relation) : Relation := r

/-- `Clone::clone` in a value model (see `Element.clone`). -/
def Id.clone (i : Id) : Id := i

/-- `Clone::clone` in a value model (see `Element.clone`). -/
def Member.clone (m : Member) : Member := m

/-- `Clone::clone` in a value model (see `Element.clone`). -/
def MemberType.clone (t : MemberType) : MemberType := t

/-- `Clone::clone` in a value model (see `Element.clone`). -/
def Info.clone (i : Info) : Info := i

/-- The capability bundle claimed by the spec for every public type:
clone, equality, and hash support, read off a derive list. -/
def supportsCloneEqHash (ts : List Trait) : Prop :=
  Trait.clone ∈ ts ∧ Trait.eqPartial ∈ ts ∧ Trait.eqFull ∈ ts ∧ Trait.hash ∈ ts

/-- Clone and equality support alone, read off a derive list. -/
def supportsCloneEq (ts : List Trait) : Prop :=
  Trait.clone ∈ ts ∧ Trait.eqPartial ∈ ts ∧ Trait.eqFull ∈ ts

/-- C1: every `Element` variant exposes the wrapped record's `id`, `tags`
and `info` fields through the shared accessors, and `info()` is present
exactly when the record's `info` is present. -/
theorem claimC1_shared_accessors :
    (∀ n : Node, (Element.node n).id = n.id ∧ (Element.node n).tags = n.tags ∧
      (Element.node n).info = n.info ∧ ((Element.node n).info.isSome ↔ n.info.isSome)) ∧
    (∀ w : Way, (Element.way w).id = w.id ∧ (Element.way w).tags = w.tags ∧
      (Element.way w).info = w.info ∧ ((Element.way w).info.isSome ↔ w.info.isSome)) ∧
    (∀ r : Relation, (Element.relation r).id = r.id ∧ (Element.relation r).tags = r.tags ∧
      (Element.relation r).info = r.info ∧ ((Element.relation r).info.isSome ↔ r.info.isSome)) := by
  refine ⟨fun n => ⟨rfl, rfl, rfl, Iff.rfl⟩, fun w => ⟨rfl, rfl, rfl, Iff.rfl⟩,
    fun r => ⟨rfl, rfl, rfl, Iff.rfl⟩⟩

/-- C2: `as_node` is present iff the variant is `Node` and then returns
exactly the wrapped record, and symmetrically for `as_way` /
`as_relation` (purity and leaving the element unchanged are intrinsic to
the functional embedding: the accessors take `e` and return only an
`Option`, never a modified element). -/
theorem claimC2_narrowing_accessors :
    ∀ e : Element,
      (∀ n : Node, e.as_node = some n ↔ e = .node n) ∧
      (∀ w : Way, e.as_way = some w ↔ e = .way w) ∧
      (∀ r : Relation, e.as_relation = some r ↔ e = .relation r) := by
  intro e
  refine ⟨fun n => ?_, fun w => ?_, fun r => ?_⟩ <;>
    cases e <;> simp [Element.as_node, Element.as_way, Element.as_relation]

/-- C3: `Element::strip_info` is idempotent, and after one application
`info()` is absent. -/
theorem claimC3_strip_info_idempotent :
    ∀ e : Element, e.strip_info.strip_info = e.strip_info ∧ e.strip_info.info = none := by
  intro e
  cases e <;> exact ⟨rfl, rfl⟩

/-- C4: `Element::strip_info` mutates only the `info` field: the variant,
`id`, `tags`, and the kind-specific data (`lat`/`lon`, `refs`, `members`)
are all preserved, as the explicit per-variant record equations show. -/
theorem claimC4_strip_info_frame :
    (∀ n : Node, (Element.node n).strip_info
      = Element.node { id := n.id, tags := n.tags, info := none, lat := n.lat, lon := n.lon }) ∧
    (∀ w : Way, (Element.way w).strip_info
      = Element.way { id := w.id, tags := w.tags, info := none, refs := w.refs }) ∧
    (∀ r : Relation, (Element.relation r).strip_info
      = Element.relation { id := r.id, tags := r.tags, info := none, members := r.members }) :=
  ⟨fun _ => rfl, fun _ => rfl, fun _ => rfl⟩

/-- C5: the record-level `strip_info` of `Node` / `Way` / `Relation`
agrees with the `Element`-level `strip_info` through wrapping. -/
theorem claimC5_strip_info_agrees :
    (∀ n : Node, (Element.node n).strip_info = Element.node n.strip_info) ∧
    (∀ w : Way, (Element.way w).strip_info = Element.way w.strip_info) ∧
    (∀ r : Relation, (Element.relation r).strip_info = Element.relation r.strip_info) :=
  ⟨fun _ => rfl, fun _ => rfl, fun _ => rfl⟩

/-- A canonical (key-sorted) entry list has no duplicate entries. -/
theorem tagEntriesSorted_nodup {l : List (KString × KString)}
    (h : TagEntriesSorted l) : l.Nodup :=
  List.Pairwise.imp (fun hlt e => absurd (e ▸ hlt) (keyLt_sto.irrefl _)) h

/-- Because the representation is canonical, two tag mappings are equal
iff they hold the same set of key/value pairs. -/
theorem tags_eq_iff (a b : Tags) :
    a = b ↔ ∀ p : KString × KString, p ∈ a.entries ↔ p ∈ b.entries := by
  constructor
  · rintro rfl p
    exact Iff.rfl
  · intro h
    haveI : IsAntisymm (KString × KString) fun x y => keyLt x.1 y.1 :=
      ⟨fun x y hx hy => ((keyLt_sto.irrefl _) (keyLt_sto.trans _ _ _ hx hy)).elim⟩
    have hperm : a.entries.Perm b.entries :=
      (List.perm_ext_iff_of_nodup (tagEntriesSorted_nodup a.sorted)
        (tagEntriesSorted_nodup b.sorted)).mpr h
    have he : a.entries = b.entries :=
      List.eq_of_perm_of_sorted hperm a.sorted b.sorted
    cases a; cases b; cases he; rfl

/-- A way is closed exactly when its node list is nonempty and its first
element equals its last element. -/
theorem way_is_closed_iff (w : Way) :
    w.is_closed = true ↔ 1 ≤ w.refs.length ∧ w.refs.head? = w.refs.getLast? := by
  rcases hr : w.refs with _ | ⟨a, l⟩
  · simp [Way.is_closed, hr]
  · obtain ⟨b, hb⟩ := Option.isSome_iff_exists.mp
      (List.getLast?_isSome.mpr (List.cons_ne_nil a l))
    simp [Way.is_closed, hr, hb, Nat.succ_le_succ (Nat.zero_le _)]

/-- A way is open exactly when its node list is nonempty and its first
element differs from its last element. -/
theorem way_is_open_iff (w : Way) :
    w.is_open = true ↔ 1 ≤ w.refs.length ∧ w.refs.head? ≠ w.refs.getLast? := by
  rcases hr : w.refs with _ | ⟨a, l⟩
  · simp [Way.is_open, hr]
  · obtain ⟨b, hb⟩ := Option.isSome_iff_exists.mp
      (List.getLast?_isSome.mpr (List.cons_ne_nil a l))
    simp [Way.is_open, hr, hb, Nat.succ_le_succ (Nat.zero_le _)]

/-- C6: `Id` equality and strict ordering are exactly equality and strict
ordering of the wrapped integer; the order is total (trichotomous,
transitive, irreflexive); `Identifier(3) > Identifier(2) > Identifier(-1)`;
and any integer, negative or zero included, is accepted unvalidated. -/
theorem claimC6_id_order :
    (∀ a b : Int, Id.mk a = Id.mk b ↔ a = b) ∧
    (∀ a b : Id, Id.lt a b ↔ a.val < b.val) ∧
    (∀ a b : Id, Id.lt a b ∨ a = b ∨ Id.lt b a) ∧
    (∀ a b c : Id, Id.lt a b → Id.lt b c → Id.lt a c) ∧
    (∀ a : Id, ¬ Id.lt a a) ∧
    Id.lt (Id.mk 2) (Id.mk 3) ∧ Id.lt (Id.mk (-1)) (Id.mk 2) ∧
    (∀ a : Int, (Id.mk a).val = a) := by
  refine ⟨fun a b => ?_, fun a b => Iff.rfl, fun a b => ?_, ?_, ?_, by decide, by decide,
    fun a => rfl⟩
  · simp [Id.mk.injEq]
  · rcases lt_trichotomy a.val b.val with h | h | h
    · exact Or.inl h
    · refine Or.inr (Or.inl ?_)
      cases a; cases b; cases h; rfl
    · exact Or.inr (Or.inr h)
  · exact fun a b c h1 h2 => lt_trans h1 h2
  · exact fun a => lt_irrefl a.val

/-- Witness for C6: the transitivity conjunct applied at concrete
identifiers, with both order hypotheses discharged by evaluation. -/
theorem claimC6_id_order_witness : Id.lt (Id.mk 1) (Id.mk 3) :=
  claimC6_id_order.2.2.2.1 (Id.mk 1) (Id.mk 2) (Id.mk 3) (by decide) (by decide)

/-- C7: a way is closed iff its reference list is nonempty and its first
element equals its last; open iff nonempty with differing first and last;
`[5, 9, 5]` is closed, `[5, 9]` is open, `[]` is neither (degenerate);
and the record accepts a reference list of any length, including `< 2`. -/
theorem claimC7_way_closed :
    (∀ w : Way, w.is_closed = true ↔ 1 ≤ w.refs.length ∧ w.refs.head? = w.refs.getLast?) ∧
    (∀ w : Way, w.is_open = true ↔ 1 ≤ w.refs.length ∧ w.refs.head? ≠ w.refs.getLast?) ∧
    (∀ i t inf, (Way.mk i t inf [Id.mk 5, Id.mk 9, Id.mk 5]).is_closed = true ∧
      (Way.mk i t inf [Id.mk 5, Id.mk 9, Id.mk 5]).is_open = false) ∧
    (∀ i t inf, (Way.mk i t inf [Id.mk 5, Id.mk 9]).is_open = true ∧
      (Way.mk i t inf [Id.mk 5, Id.mk 9]).is_closed = false) ∧
    (∀ i t inf, (Way.mk i t inf []).is_closed = false ∧ (Way.mk i t inf []).is_open = false) ∧
    (∀ i t inf (l : List Id), (Way.mk i t inf l).refs = l) :=
  ⟨way_is_closed_iff, way_is_open_iff, fun _ _ _ => ⟨rfl, rfl⟩, fun _ _ _ => ⟨rfl, rfl⟩,
    fun _ _ _ => ⟨rfl, rfl⟩, fun _ _ _ _ => rfl⟩

/-- C10: tag-mapping equality is insertion-order independent: two
mappings are equal iff they hold the same set of key/value pairs; the
mapping `{"name": "A", "highway": "B"}` built in either insertion order
is one and the same value, and differs from `{"name": "A"}`. -/
theorem claimC10_tag_equality :
    (∀ a b : Tags, a = b ↔ ∀ p : KString × KString, p ∈ a.entries ↔ p ∈ b.entries) ∧
    (Tags.empty.insert "name" "A").insert "highway" "B"
      = (Tags.empty.insert "highway" "B").insert "name" "A" ∧
    (Tags.empty.insert "name" "A").insert "highway" "B" ≠ Tags.empty.insert "name" "A" :=
  ⟨tags_eq_iff, by decide, by decide⟩

/-- Two tag mappings with the same entry list are equal. -/
theorem tags_ext {a b : Tags} (h : a.entries = b.entries) : a = b := by
  cases a; cases b; cases h; rfl

/-- Inserting a pair whose key lies above every key already present
appends it at the end. -/
theorem insertTag_append {k v : KString} :
    ∀ {l : List (KString × KString)}, (∀ x ∈ l, keyLt x.1 k) →
      insertTag k v l = l ++ [(k, v)] := by
  intro l
  induction l with
  | nil => intro _; rfl
  | cons p rest ih =>
    intro h
    have hp : keyLt p.1 k := h p (List.mem_cons_self p rest)
    have h1 : ¬ keyLt k p.1 := fun hk => keyLt_sto.irrefl _ (keyLt_sto.trans _ _ _ hp hk)
    have h2 : k ≠ p.1 := fun he => keyLt_sto.irrefl _ (he ▸ hp)
    simp [insertTag, h1, h2, ih (fun x hx => h x (List.mem_cons_of_mem _ hx))]

/-- Folding insertions of an entry list whose keys all lie above the keys
of the accumulator, with the concatenation in canonical form, simply
appends the list. -/
theorem foldl_insert_entries :
    ∀ (l : List (KString × KString)) (t : Tags),
      (∀ x ∈ t.entries, ∀ y ∈ l, keyLt x.1 y.1) →
      TagEntriesSorted (t.entries ++ l) →
      (l.foldl (fun acc p => acc.insert p.1 p.2) t).entries = t.entries ++ l := by
  intro l
  induction l with
  | nil => intro t _ _; simp
  | cons p rest ih =>
    intro t hlt hs
    have hxp : ∀ x ∈ t.entries, keyLt x.1 p.1 :=
      fun x hx => hlt x hx p (List.mem_cons_self p rest)
    have hent : (t.insert p.1 p.2).entries = t.entries ++ [p] := by
      show insertTag p.1 p.2 t.entries = t.entries ++ [p]
      rw [insertTag_append hxp]
    have hrest : ∀ y ∈ rest, keyLt p.1 y.1 := by
      have h' := hs
      rw [TagEntriesSorted, List.pairwise_append] at h'
      have hp := h'.2.1
      rw [List.pairwise_cons] at hp
      exact hp.1
    have hcond : ∀ x ∈ (t.insert p.1 p.2).entries, ∀ y ∈ rest, keyLt x.1 y.1 := by
      rw [hent]
      intro x hx y hy
      rcases List.mem_append.mp hx with hx | hx
      · exact hlt x hx y (List.mem_cons_of_mem _ hy)
      · rcases List.mem_singleton.mp hx with rfl
        exact hrest y hy
    have hs' : TagEntriesSorted ((t.insert p.1 p.2).entries ++ rest) := by
      rw [hent]
      have he : (t.entries ++ [p]) ++ rest = t.entries ++ p :: rest := by simp
      rw [he]
      exact hs
    calc ((p :: rest).foldl (fun acc q => acc.insert q.1 q.2) t).entries
        = (rest.foldl (fun acc q => acc.insert q.1 q.2) (t.insert p.1 p.2)).entries := by
          rw [List.foldl_cons]
      _ = (t.insert p.1 p.2).entries ++ rest := ih _ hcond hs'
      _ = t.entries ++ p :: rest := by rw [hent]; simp

/-- Re-inserting the entries of a tag mapping into an empty map, in
order, rebuilds the very same mapping. -/
theorem tags_fromEntries_sorted (t : Tags) : Tags.fromEntries t.entries = t := by
  apply tags_ext
  have h := foldl_insert_entries t.entries Tags.empty
    (fun x hx => absurd hx (List.not_mem_nil x)) (by simpa using t.sorted)
  simpa [Tags.fromEntries, Tags.empty] using h

/-- Decoding the serialized tag entries recovers the entry list. -/
theorem decodeTagEntries_map (l : List (KString × KString)) :
    decodeTagEntries (l.map fun p => (p.1, Json.str p.2)) = some l := by
  induction l with
  | nil => rfl
  | cons p rest ih =>
    obtain ⟨k, v⟩ := p
    simp [decodeTagEntries, ih]

/-- The tag mapping round-trips through serialization. -/
theorem tags_fromJson_toJson (t : Tags) : Tags.fromJson? t.toJson = some t := by
  simp [Tags.toJson, Tags.fromJson?, decodeTagEntries_map, tags_fromEntries_sorted]

/-- `Id` round-trips through serialization. -/
theorem id_fromJson_toJson (i : Id) : Id.fromJson? i.toJson = some i := rfl

/-- `Decimal` round-trips through serialization. -/
theorem decimal_fromJson_toJson (d : Decimal) : Decimal.fromJson? d.toJson = some d := by
  simp [Decimal.toJson, Decimal.fromJson?, Int.natCast_nonneg]

/-- An optional timestamp round-trips through serialization. -/
theorem opt_ndt_roundtrip (o : Option NaiveDateTime) :
    optFromJson? NaiveDateTime.fromJson? (optToJson NaiveDateTime.toJson o) = some o := by
  cases o <;> rfl

/-- An optional integer field round-trips through serialization. -/
theorem opt_int_roundtrip (o : Option Int) :
    optFromJson? intFromJson? (optToJson (fun c => Json.num c) o) = some o := by
  cases o <;> rfl

/-- An optional string field round-trips through serialization. -/
theorem opt_str_roundtrip (o : Option KString) :
    optFromJson? strFromJson? (optToJson (fun u => Json.str u) o) = some o := by
  cases o <;> rfl

/-- An optional boolean field round-trips through serialization. -/
theorem opt_bool_roundtrip (o : Option Bool) :
    optFromJson? boolFromJson? (optToJson (fun b => Json.bool b) o) = some o := by
  cases o <;> rfl

/-- `Info` round-trips through serialization, for every combination of
present and absent optional fields (the `visible = Some(false)` case
included). -/
theorem info_fromJson_toJson (i : Info) : Info.fromJson? i.toJson = some i := by
  obtain ⟨v, t, c, u, us, vis⟩ := i
  simp [Info.toJson, Info.fromJson?, opt_ndt_roundtrip, opt_int_roundtrip,
    opt_str_roundtrip, opt_bool_roundtrip]

/-- An optional `Info` round-trips through serialization (absent `Info`
serializes as `null`, not as an empty object). -/
theorem opt_info_roundtrip (o : Option Info) :
    optFromJson? Info.fromJson? (optToJson Info.toJson o) = some o := by
  cases o with
  | none => rfl
  | some i =>
    show (Info.fromJson? (Info.toJson i)).map some = some (some i)
    rw [info_fromJson_toJson]
    rfl

/-- `Node` round-trips through serialization. -/
theorem node_fromJson_toJson (n : Node) : Node.fromJson? n.toJson = some n := by
  obtain ⟨i, t, inf, la, lo⟩ := n
  simp [Node.toJson, Node.fromJson?, Id.toJson, Id.fromJson?, tags_fromJson_toJson,
    opt_info_roundtrip, decimal_fromJson_toJson]

/-- Decoding a serialized reference array recovers the reference list. -/
theorem decodeRefs_map (l : List Id) : decodeRefs (l.map Id.toJson) = some l := by
  induction l with
  | nil => rfl
  | cons a rest ih => simp [decodeRefs, Id.toJson, Id.fromJson?, ih]

/-- `Way` round-trips through serialization. -/
theorem way_fromJson_toJson (w : Way) : Way.fromJson? w.toJson = some w := by
  obtain ⟨i, t, inf, refs⟩ := w
  simp [Way.toJson, Way.fromJson?, Id.toJson, Id.fromJson?, tags_fromJson_toJson,
    opt_info_roundtrip, decodeRefs_map]

/-- `MemberType` round-trips through serialization. -/
theorem memberType_fromJson_toJson (t : MemberType) :
    MemberType.fromJson? t.toJson = some t := by
  cases t <;> rfl

/-- `Member` round-trips through serialization (the absent-role case
included). -/
theorem member_fromJson_toJson (m : Member) : Member.fromJson? m.toJson = some m := by
  obtain ⟨i, ty, role⟩ := m
  simp [Member.toJson, Member.fromJson?, Id.toJson, Id.fromJson?,
    memberType_fromJson_toJson, opt_str_roundtrip]

/-- Decoding a serialized member array recovers the member list in
order. -/
theorem decodeMembers_map (l : List Member) :
    decodeMembers (l.map Member.toJson) = some l := by
  induction l with
  | nil => rfl
  | cons m rest ih => simp [decodeMembers, member_fromJson_toJson, ih]

/-- `Relation` round-trips through serialization, member order
preserved. -/
theorem relation_fromJson_toJson (r : Relation) :
    Relation.fromJson? r.toJson = some r := by
  obtain ⟨i, t, inf, members⟩ := r
  simp [Relation.toJson, Relation.fromJson?, Id.toJson, Id.fromJson?,
    tags_fromJson_toJson, opt_info_roundtrip, decodeMembers_map]

/-- C8: serializing any `Element` of any of the three kinds and
deserializing the result yields the original element — in particular for
an absent `Info`, for `visible = Some(false)` (both covered by the
quantification over all elements), and with a `Relation`'s member list
order preserved (equality of `Relation` includes the ordered member
list). -/
theorem claimC8_serde_roundtrip :
    ∀ e : Element, Element.fromJson? e.toJson = some e := by
  intro e
  cases e with
  | node n => simp [Element.toJson, Element.fromJson?, node_fromJson_toJson]
  | way w => simp [Element.toJson, Element.fromJson?, way_fromJson_toJson]
  | relation r => simp [Element.toJson, Element.fromJson?, relation_fromJson_toJson]

/-- C9 as stated is false: it asks hash support of all eight public
types, but `Element`, `Node`, `Way` and `Relation` derive only
`Debug, PartialEq, Eq, Clone` — no `Hash` (their tag field is a hash map,
which implements no `Hash`). The concrete failing instance is `Element`'s
derive list. -/
theorem claimC9_counterexample :
    ¬ (supportsCloneEqHash Element.derivedTraits ∧
       supportsCloneEqHash Node.derivedTraits ∧
       supportsCloneEqHash Way.derivedTraits ∧
       supportsCloneEqHash Relation.derivedTraits ∧
       supportsCloneEqHash Id.derivedTraits ∧
       supportsCloneEqHash Member.derivedTraits ∧
       supportsCloneEqHash MemberType.derivedTraits ∧
       supportsCloneEqHash Info.derivedTraits) := by
  intro h
  have h1 := h.1
  unfold supportsCloneEqHash at h1
  exact absurd h1.2.2.2 (by decide)

/-- C9 (amended): every public value type of the model can be cloned
(a no-op deep copy on values) and compared for equality, and the four
metadata types `Id`, `Member`, `MemberType` and `Info` can additionally
be hashed; the four container types `Element`, `Node`, `Way` and
`Relation` derive no hash support. -/
theorem claimC9_clone_eq_hash :
    (∀ e : Element, e.clone = e) ∧ (∀ n : Node, n.clone = n) ∧
    (∀ w : Way, w.clone = w) ∧ (∀ r : Relation, r.clone = r) ∧
    (∀ i : Id, i.clone = i) ∧ (∀ m : Member, m.clone = m) ∧
    (∀ t : MemberType, t.clone = t) ∧ (∀ i : Info, i.clone = i) ∧
    supportsCloneEq Element.derivedTraits ∧ supportsCloneEq Node.derivedTraits ∧
    supportsCloneEq Way.derivedTraits ∧ supportsCloneEq Relation.derivedTraits ∧
    supportsCloneEq Id.derivedTraits ∧ supportsCloneEq Member.derivedTraits ∧
    supportsCloneEq MemberType.derivedTraits ∧ supportsCloneEq Info.derivedTraits ∧
    Trait.hash ∈ Id.derivedTraits ∧ Trait.hash ∈ Member.derivedTraits ∧
    Trait.hash ∈ MemberType.derivedTraits ∧ Trait.hash ∈ Info.derivedTraits ∧
    Trait.hash ∉ Element.derivedTraits ∧ Trait.hash ∉ Node.derivedTraits ∧
    Trait.hash ∉ Way.derivedTraits ∧ Trait.hash ∉ Relation.derivedTraits :=
  ⟨fun _ => rfl, fun _ => rfl, fun _ => rfl, fun _ => rfl, fun _ => rfl, fun _ => rfl,
    fun _ => rfl, fun _ => rfl,
    by unfold supportsCloneEq; decide, by unfold supportsCloneEq; decide,
    by unfold supportsCloneEq; decide, by unfold supportsCloneEq; decide,
    by unfold supportsCloneEq; decide, by unfold supportsCloneEq; decide,
    by unfold supportsCloneEq; decide, by unfold supportsCloneEq; decide,
    by decide, by decide, by decide, by decide,
    by decide, by decide, by decide, by decide⟩

end Osm
